import Mathlib

/-!
Shallow embedding of the ranged-mmap library (Rust) for specification checking.

Machine integers (u64) are modelled as Nat values below 2 ^ 64; where the Rust
code can wrap (atomic fetch_add always wraps, and release-mode arithmetic wraps
on overflow) the embedding takes an explicit remainder modulo 2 ^ 64.
The memory mapping is modelled as a list of byte values whose length is the
file size.
-/

namespace RangedMmap

/-- 4K alignment size, src/file/allocator.rs (ALIGNMENT). -/
def ALIGNMENT : Nat := 4096

/-- Modulus of u64 arithmetic. -/
def U64_MOD : Nat := 2 ^ 64

/-- align_up, src/file/allocator.rs lines 29-36.
The Rust body matches on value mod ALIGNMENT: an already aligned value is
returned unchanged, otherwise value + (ALIGNMENT - remainder) is computed in
u64 arithmetic, which in release builds wraps modulo 2 ^ 64 (it can overflow
when value is above 2 ^ 64 - 4096). -/
def align_up (value : Nat) : Nat :=
  match value % ALIGNMENT with
  | 0 => value
  | r => (value + (ALIGNMENT - r)) % U64_MOD

/-- align_down, src/file/allocator.rs lines 54-56.
The Rust body is a bit mask, value AND NOT (ALIGNMENT - 1), which clears the
low 12 bits of a u64, i.e. rounds down to a multiple of 4096; it never
overflows. -/
def align_down (value : Nat) : Nat :=
  value - value % ALIGNMENT

/-- AllocatedRange, src/file/range.rs lines 236-246: a half open interval
with u64 fields start and end (the Rust field end is called endPos here
because end is a Lean keyword). -/
structure AllocatedRange where
  start : Nat
  endPos : Nat
deriving DecidableEq

/-- AllocatedRange::len, src/file/range.rs lines 293-295 (u64 subtraction,
well defined for start at most endPos). -/
def AllocatedRange.len (r : AllocatedRange) : Nat :=
  r.endPos - r.start

/-- AllocatedRange::is_empty, src/file/range.rs lines 301-303. -/
def AllocatedRange.isEmpty (r : AllocatedRange) : Bool :=
  r.start == r.endPos

/-- SplitUpResult, src/file/range.rs lines 25-47. -/
inductive SplitUpResult where
  | Split (low high : AllocatedRange)
  | Low (r : AllocatedRange)
  | OutOfBounds (r : AllocatedRange)
deriving DecidableEq

/-- SplitDownResult, src/file/range.rs lines 107-129. -/
inductive SplitDownResult where
  | Split (low high : AllocatedRange)
  | High (r : AllocatedRange)
  | OutOfBounds (r : AllocatedRange)
deriving DecidableEq

/-- AllocatedRange::split_at_align_up, src/file/range.rs lines 343-362. -/
def AllocatedRange.split_at_align_up (r : AllocatedRange) (pos : Nat) :
    SplitUpResult :=
  let s := r.start
  let e := r.endPos
  let len := r.len
  if pos > len then
    SplitUpResult.OutOfBounds r
  else
    let split_point := align_up (s + pos)
    if split_point ≥ e then
      SplitUpResult.Low r
    else
      SplitUpResult.Split ⟨s, split_point⟩ ⟨split_point, e⟩

/-- AllocatedRange::split_at_align_down, src/file/range.rs lines 401-420. -/
def AllocatedRange.split_at_align_down (r : AllocatedRange) (pos : Nat) :
    SplitDownResult :=
  let s := r.start
  let e := r.endPos
  let len := r.len
  if pos > len then
    SplitDownResult.OutOfBounds r
  else
    let split_point := align_down (s + pos)
    if split_point ≤ s then
      SplitDownResult.High r
    else
      SplitDownResult.Split ⟨s, split_point⟩ ⟨split_point, e⟩

/-- Sequential allocator state, src/file/allocator/sequential.rs lines 48-58:
a cursor next_pos and the NonZeroU64 total file size. -/
structure SeqAllocator where
  next_pos : Nat
  total_size : Nat
deriving DecidableEq

/-- Sequential Allocator::allocate, src/file/allocator/sequential.rs
lines 82-98.  remaining is a saturating u64 subtraction; start + actual_size
never exceeds total_size when the cursor is below it, so the addition cannot
overflow. -/
def SeqAllocator.allocate (a : SeqAllocator) (size : Nat) :
    Option AllocatedRange × SeqAllocator :=
  let remaining := a.total_size - a.next_pos
  if remaining = 0 then
    (none, a)
  else
    let start := a.next_pos
    let aligned_size := align_up size
    let actual_size := min aligned_size remaining
    let e := start + actual_size
    (some ⟨start, e⟩, { a with next_pos := e })

/-- Run a sequence of sequential allocate calls, returning each result. -/
def SeqAllocator.run (a : SeqAllocator) : List Nat → List (Option AllocatedRange)
  | [] => []
  | s :: rest =>
    let (r, a2) := a.allocate s
    r :: a2.run rest

/-- Concurrent allocator state, src/file/allocator/concurrent.rs lines 44-54:
an AtomicU64 cursor next_pos and the NonZeroU64 total file size. -/
structure ConcAllocator where
  next_pos : Nat
  total_size : Nat
deriving DecidableEq

/-- Concurrent Allocator::allocate, src/file/allocator/concurrent.rs
lines 125-158, embedded as one atomic step (the whole call is determined by
the single fetch_add, so any thread interleaving of calls is some sequential
order of these steps).  AtomicU64::fetch_add wraps modulo 2 ^ 64 by its
documented semantics; saturating_add caps at 2 ^ 64 - 1. -/
def ConcAllocator.allocate (a : ConcAllocator) (requested_size : Nat) :
    Option AllocatedRange × ConcAllocator :=
  let size := align_up requested_size
  let total := a.total_size
  let start := a.next_pos
  let a2 : ConcAllocator := { a with next_pos := (a.next_pos + size) % U64_MOD }
  if start ≥ total then
    (none, a2)
  else
    let theoretical_end := min (start + size) (U64_MOD - 1)
    let e := min theoretical_end total
    (some ⟨start, e⟩, a2)

/-- Run a sequence of concurrent allocate steps, returning each result. -/
def ConcAllocator.run (a : ConcAllocator) : List Nat → List (Option AllocatedRange)
  | [] => []
  | s :: rest =>
    let (r, a2) := a.allocate s
    r :: a2.run rest

/-- Two ranges overlap when some byte position lies in both intervals. -/
def AllocatedRange.overlaps (r1 r2 : AllocatedRange) : Prop :=
  max r1.start r2.start < min r1.endPos r2.endPos

instance (r1 r2 : AllocatedRange) : Decidable (r1.overlaps r2) := by
  unfold AllocatedRange.overlaps
  infer_instance

/-- Sum of the lengths of the ranges returned by a sequence of allocate
calls. -/
def allocatedLenSum (out : List (Option AllocatedRange)) : Nat :=
  (out.filterMap id).foldl (fun acc r => acc + r.len) 0

/-- Error, src/file/error.rs lines 12-69 (the variants the embedded
operations can produce; payloads follow the Rust fields). -/
inductive Error where
  | WriteExceedsFileSize (offset : Nat) (len : Nat) (file_size : Nat)
  | BufferTooSmall (buffer_len : Nat) (range_len : Nat)
deriving DecidableEq

/-- Result, src/file/error.rs line 157: the Rust Result alias specialised to
the Error type above. -/
inductive RResult (α : Type) where
  | ok (v : α)
  | error (e : Error)
deriving DecidableEq

/-- WriteReceipt, src/file/range.rs lines 497-511: a value wrapping the
written range, with the crate-internal constructor WriteReceipt::new. -/
structure WriteReceipt where
  range : AllocatedRange
deriving DecidableEq

/-- MmapFileInner::write_at, src/file/mmap_file_inner.rs lines 313-333.
The mapping is the byte list m (its length is the file size); on a bounds
failure the mapping is untouched and WriteExceedsFileSize is returned,
otherwise the data is copied in at offset and its length returned. -/
def write_at (m : List Nat) (offset : Nat) (data : List Nat) :
    List Nat × RResult Nat :=
  let len := data.length
  if offset + len > m.length then
    (m, RResult.error (Error.WriteExceedsFileSize offset len m.length))
  else
    (m.take offset ++ data ++ m.drop (offset + len), RResult.ok len)

/-- MmapFile::write_range, src/file/mmap_file.rs lines 310-326.
The data length check is only a debug_assert (absent in release builds); the
Result of the underlying write_at is discarded by the trailing semicolon, and
a WriteReceipt for the range is returned unconditionally. -/
def write_range (m : List Nat) (range : AllocatedRange) (data : List Nat) :
    List Nat × WriteReceipt :=
  let (m2, _) := write_at m range.start data
  (m2, WriteReceipt.mk range)

/-- MmapFileInner::read_at, src/file/mmap_file_inner.rs lines 407-425.
Given the destination buffer buf it returns the buffer after the call
together with the Ok byte count: zero when offset is at or past the file
size, otherwise min(size - offset, buf.len) bytes copied from the mapping at
offset into the front of buf. -/
def read_at (m : List Nat) (offset : Nat) (buf : List Nat) :
    List Nat × RResult Nat :=
  if offset ≥ m.length then
    (buf, RResult.ok 0)
  else
    let available := min (m.length - offset) buf.length
    ((m.drop offset).take available ++ buf.drop available, RResult.ok available)

/-- MmapFile::read_range, src/file/mmap_file.rs lines 384-397.
Requires buf.len at least range.len, else BufferTooSmall; otherwise performs
read_at over the prefix buf[0..len] of the buffer (the rest of the buffer is
untouched). -/
def read_range (m : List Nat) (range : AllocatedRange) (buf : List Nat) :
    List Nat × RResult Nat :=
  let len := range.len
  if buf.length < len then
    (buf, RResult.error (Error.BufferTooSmall buf.length len))
  else
    let (b2, res) := read_at m range.start (buf.take len)
    (b2 ++ buf.drop len, res)

/-! Helper lemmas about the alignment functions. -/

/-- An already aligned value is returned unchanged by align_up. -/
lemma align_up_of_aligned (v : Nat) (h : v % ALIGNMENT = 0) : align_up v = v := by
  unfold align_up
  split
  · rfl
  · rename_i k hk
    exact absurd h hk

/-- On a non-aligned input where the u64 addition cannot overflow, align_up
adds the distance to the next multiple of ALIGNMENT. -/
lemma align_up_of_not_aligned (v : Nat) (hv : v ≤ 2 ^ 64 - ALIGNMENT)
    (h : v % ALIGNMENT ≠ 0) : align_up v = v + (ALIGNMENT - v % ALIGNMENT) := by
  unfold align_up ALIGNMENT U64_MOD at *
  split
  · omega
  · rename_i k hk
    rw [Nat.mod_eq_of_lt (by omega)]

/-- align_down subtracts the remainder modulo ALIGNMENT. -/
lemma align_down_val (v : Nat) : align_down v = v - v % ALIGNMENT := rfl

/-! Theorems for the frozen claims. -/

/-- C1: the no-overlap and contiguity property fails on the concurrent
allocator because AtomicU64::fetch_add wraps modulo 2 ^ 64.  On an allocator
of total_size 4096, three allocate calls of requested_size 2 ^ 63 return the
range [0, 4096), then None, then [0, 4096) again: the first and third
returned ranges overlap (they are identical and non-empty), so the returned
ranges are neither pairwise disjoint nor contiguous. -/
theorem c1_concurrent_overlap_at_cursor_wrap :
    ConcAllocator.run ⟨0, 4096⟩ [2 ^ 63, 2 ^ 63, 2 ^ 63] =
      [some ⟨0, 4096⟩, none, some ⟨0, 4096⟩] ∧
    AllocatedRange.overlaps ⟨0, 4096⟩ ⟨0, 4096⟩ := by
  decide

/-- C2: the exhaustion property fails on the concurrent allocator for the
same cursor-wrap reason.  With total_size 4096, the first allocate call of
requested_size 2 ^ 63 already brings the sum of returned lengths to
total_size, so every later call should return None; yet the third call of
the same size returns Some [0, 4096). -/
theorem c2_allocate_succeeds_after_exhaustion :
    allocatedLenSum (ConcAllocator.run ⟨0, 4096⟩ [2 ^ 63]) = 4096 ∧
    ConcAllocator.run ⟨0, 4096⟩ [2 ^ 63, 2 ^ 63, 2 ^ 63] =
      [some ⟨0, 4096⟩, none, some ⟨0, 4096⟩] := by
  decide

/-- C7 counterexample: align_up is not always at or above its argument.
At v = 2 ^ 64 - 1 the u64 addition in align_up overflows and the release
build wraps the result to 0, so align_down v at most v at most align_up v
fails, as does the smallest-multiple characterisation. -/
theorem c7_counterexample_align_up_wraps :
    align_up (2 ^ 64 - 1) = 0 ∧ ¬ (2 ^ 64 - 1 ≤ align_up (2 ^ 64 - 1)) := by
  decide

/-- C7 amended: on every u64 value v with v at most 2 ^ 64 - 4096 (so that
the addition inside align_up cannot overflow), align_up v is the smallest
multiple of 4096 at or above v, align_down v is the largest multiple at or
below v, align_up 0 = 0, align_down v at most v at most align_up v, their
difference is 0 or 4096, and align_down (align_up v) = align_up v; the
align_down clauses hold for every u64 v. -/
theorem c7_alignment_characterisation (v : Nat) (hv : v ≤ 2 ^ 64 - ALIGNMENT) :
    ALIGNMENT ∣ align_up v ∧
    v ≤ align_up v ∧
    (∀ m, ALIGNMENT ∣ m → v ≤ m → align_up v ≤ m) ∧
    ALIGNMENT ∣ align_down v ∧
    align_down v ≤ v ∧
    (∀ m, ALIGNMENT ∣ m → m ≤ v → m ≤ align_down v) ∧
    align_up 0 = 0 ∧
    (align_up v - align_down v = 0 ∨ align_up v - align_down v = ALIGNMENT) ∧
    align_down (align_up v) = align_up v := by
  have h0 : align_up 0 = 0 := by decide
  have hdn := align_down_val v
  have hdnup := align_down_val (align_up v)
  by_cases h : v % ALIGNMENT = 0
  · have hup := align_up_of_aligned v h
    unfold ALIGNMENT at *
    refine ⟨by omega, by omega, ?_, by omega, by omega, ?_, h0, by omega, by omega⟩
    · intro m hm hvm
      omega
    · intro m hm hmv
      omega
  · have hup := align_up_of_not_aligned v hv h
    unfold ALIGNMENT at *
    refine ⟨by omega, by omega, ?_, by omega, by omega, ?_, h0, by omega, by omega⟩
    · intro m hm hvm
      omega
    · intro m hm hmv
      omega

/-! Helper lemmas about the embedded mapped-file engine. -/

/-- write_range always forwards the memory produced by write_at and wraps
the given range in a receipt. -/
lemma write_range_eq (m data : List Nat) (r : AllocatedRange) :
    write_range m r data = ((write_at m r.start data).1, WriteReceipt.mk r) := by
  unfold write_range
  rcases hw : write_at m r.start data with ⟨m2, res⟩
  simp [hw]

/-- write_at succeeds and splices the data in when it fits in the file. -/
lemma write_at_of_fits (m data : List Nat) (offset : Nat)
    (h : offset + data.length ≤ m.length) :
    write_at m offset data =
      (m.take offset ++ data ++ m.drop (offset + data.length),
       RResult.ok data.length) := by
  simp only [write_at]
  rw [if_neg (by omega)]

/-- Reading with read_at at position s from a mapping of the shape
take s ++ data ++ drop e recovers exactly data, for any destination buffer
of the matching length e - s. -/
lemma read_at_written (m data buf2 : List Nat) (s e : Nat) (hse : s ≤ e)
    (he : e ≤ m.length) (hd : data.length = e - s) (hb : buf2.length = e - s) :
    read_at (m.take s ++ data ++ m.drop e) s buf2 =
      (data, RResult.ok data.length) := by
  have hs : s ≤ m.length := le_trans hse he
  have hts : (m.take s).length = s := by
    rw [List.length_take]
    omega
  have hm : (m.take s ++ data ++ m.drop e).length = m.length := by
    simp only [List.length_append, List.length_take, List.length_drop]
    omega
  simp only [read_at, hm]
  by_cases hcase : s ≥ m.length
  · rw [if_pos hcase]
    have hd0 : data.length = 0 := by omega
    have hb0 : buf2.length = 0 := by omega
    rw [List.eq_nil_of_length_eq_zero hd0, List.eq_nil_of_length_eq_zero hb0]
    rfl
  · rw [if_neg hcase]
    have hav : min (m.length - s) buf2.length = e - s := by omega
    rw [hav]
    have hdrop : (m.take s ++ data ++ m.drop e).drop s = data ++ m.drop e := by
      rw [List.append_assoc]
      exact List.drop_left' hts
    rw [hdrop, List.take_left' hd, ← hb, List.drop_length, List.append_nil, hd, hb]

/-! More theorems for the frozen claims. -/

/-- C3 counterexample: write_range does not fail on a data length mismatch.
On a file of 8 zero bytes, writing the single byte 42 to the range [0, 8)
(length 8, data length 1) returns a WriteReceipt for [0, 8) and performs the
underlying one byte write, instead of returning a data-length-mismatch
error: the length check in the source is only a debug_assert and the
function has no error return at all. -/
theorem c3_counterexample_no_mismatch_error :
    ([42] : List Nat).length ≠ (AllocatedRange.mk 0 8).len ∧
    write_range (List.replicate 8 0) ⟨0, 8⟩ [42] =
      (42 :: List.replicate 7 0, WriteReceipt.mk ⟨0, 8⟩) := by
  decide

/-- C3 amended: write_range never returns an error; for every range and
data it returns a WriteReceipt for exactly that range (discarding the
result of the underlying write_at), and it performs the underlying write
when the data length matches the range length and the range lies inside the
file.  The data.len = range.len requirement exists only as a debug
assertion. -/
theorem c3_write_range_always_returns_receipt (m data : List Nat)
    (r : AllocatedRange) :
    (write_range m r data).2 = WriteReceipt.mk r ∧
    (r.start ≤ r.endPos → r.endPos ≤ m.length → data.length = r.len →
      (write_range m r data).1 =
        m.take r.start ++ data ++ m.drop r.endPos) := by
  constructor
  · rw [write_range_eq]
  · intro h1 h2 h3
    unfold AllocatedRange.len at h3
    have hfit : r.start + data.length ≤ m.length := by omega
    have hidx : r.start + data.length = r.endPos := by omega
    rw [write_range_eq, write_at_of_fits m data r.start hfit, hidx]

/-- Witness for C3: the amended statement at a file of 8 zero bytes, the
range [2, 5) and the matching data [7, 8, 9]. -/
theorem c3_write_range_always_returns_receipt_witness :
    (write_range (List.replicate 8 0) ⟨2, 5⟩ [7, 8, 9]).2 =
      WriteReceipt.mk ⟨2, 5⟩ ∧
    ((2 : Nat) ≤ 5 → 5 ≤ (List.replicate 8 0 : List Nat).length →
      ([7, 8, 9] : List Nat).length = (AllocatedRange.mk 2 5).len →
      (write_range (List.replicate 8 0) ⟨2, 5⟩ [7, 8, 9]).1 =
        (List.replicate 8 0 : List Nat).take 2 ++ [7, 8, 9] ++
          (List.replicate 8 0 : List Nat).drop 5) :=
  c3_write_range_always_returns_receipt (List.replicate 8 0) [7, 8, 9] ⟨2, 5⟩

/-- C4: a WriteReceipt is returned even when the underlying write fails its
bounds check, because write_range discards the Result of write_at.  A
sequential allocator seeded with total_size 16 (allowed by the public
RangeAllocator::new independently of any file) yields the range [0, 16);
writing 16 bytes through a file of size 8 makes write_at fail with
WriteExceedsFileSize and leave the mapping untouched, yet write_range still
returns a receipt for [0, 16). -/
theorem c4_receipt_despite_failed_write :
    (SeqAllocator.allocate ⟨0, 16⟩ 16).1 = some ⟨0, 16⟩ ∧
    write_at (List.replicate 8 0) 0 (List.replicate 16 1) =
      (List.replicate 8 0, RResult.error (Error.WriteExceedsFileSize 0 16 8)) ∧
    write_range (List.replicate 8 0) ⟨0, 16⟩ (List.replicate 16 1) =
      (List.replicate 8 0, WriteReceipt.mk ⟨0, 16⟩) := by
  decide

/-- C5: write/read round-trip.  For a range inside the file, writing data of
the range length with write_range and reading the range back with read_range
into a buffer at least as long reports data.length bytes read and fills the
first data.length positions of the buffer with the written bytes. -/
theorem c5_write_read_roundtrip (m data buf : List Nat) (r : AllocatedRange)
    (hse : r.start ≤ r.endPos) (hend : r.endPos ≤ m.length)
    (hdata : data.length = r.len) (hbuf : r.len ≤ buf.length) :
    (read_range (write_range m r data).1 r buf).2 = RResult.ok data.length ∧
    (read_range (write_range m r data).1 r buf).1.take data.length = data := by
  have hlen : r.len = r.endPos - r.start := rfl
  have hfit : r.start + data.length ≤ m.length := by
    unfold AllocatedRange.len at hdata
    omega
  have hidx : r.start + data.length = r.endPos := by
    unfold AllocatedRange.len at hdata
    omega
  have hw : (write_range m r data).1 =
      m.take r.start ++ data ++ m.drop r.endPos := by
    rw [write_range_eq, write_at_of_fits m data r.start hfit, hidx]
  have hb2 : (buf.take r.len).length = r.len := by
    rw [List.length_take]
    omega
  have hr : read_at (m.take r.start ++ data ++ m.drop r.endPos) r.start
      (buf.take r.len) = (data, RResult.ok data.length) :=
    read_at_written m data (buf.take r.len) r.start r.endPos hse hend
      (by omega) (by omega)
  rw [hw]
  simp only [read_range]
  rw [if_neg (by omega), hr]
  refine ⟨rfl, ?_⟩
  show (data ++ buf.drop r.len).take data.length = data
  exact List.take_left' rfl

/-- Witness for C5: a file of 8 zero bytes, the range [2, 5), the data
[1, 2, 3] and a destination buffer of 4 nines. -/
theorem c5_write_read_roundtrip_witness :
    (2 : Nat) ≤ 5 ∧
    (read_range (write_range (List.replicate 8 0) ⟨2, 5⟩ [1, 2, 3]).1 ⟨2, 5⟩
        [9, 9, 9, 9]).2 = RResult.ok 3 ∧
    (read_range (write_range (List.replicate 8 0) ⟨2, 5⟩ [1, 2, 3]).1 ⟨2, 5⟩
        [9, 9, 9, 9]).1.take 3 = [1, 2, 3] :=
  ⟨by decide,
   c5_write_read_roundtrip (List.replicate 8 0) [1, 2, 3] [9, 9, 9, 9] ⟨2, 5⟩
     (by decide) (by decide) (by decide) (by decide)⟩

/-- C6: read_at clamps to the available bytes.  When offset is at or past
the file size it returns the untouched buffer and 0 bytes read; otherwise it
reports min(buf.len, size - offset) bytes read and the front of the
resulting buffer holds exactly those bytes of the mapping starting at
offset. -/
theorem c6_read_at_clamps (m buf : List Nat) (offset : Nat) :
    (m.length ≤ offset → read_at m offset buf = (buf, RResult.ok 0)) ∧
    (offset < m.length →
      (read_at m offset buf).2 =
        RResult.ok (min buf.length (m.length - offset)) ∧
      (read_at m offset buf).1.take (min buf.length (m.length - offset)) =
        (m.drop offset).take (min buf.length (m.length - offset))) := by
  constructor
  · intro h
    simp only [read_at]
    rw [if_pos (by omega)]
  · intro h
    simp only [read_at]
    rw [if_neg (by omega)]
    have hmm : min (m.length - offset) buf.length =
        min buf.length (m.length - offset) := Nat.min_comm _ _
    have hlt : ((m.drop offset).take (min (m.length - offset) buf.length)).length =
        min (m.length - offset) buf.length := by
      rw [List.length_take, List.length_drop]
      omega
    constructor
    · rw [hmm]
    · rw [← hmm, List.take_left' hlt]

/-- Witness for C6: reading at offset 3 of a file of 5 bytes of value 7 into
a buffer of 3 zero bytes reads min(3, 2) = 2 bytes. -/
theorem c6_read_at_clamps_witness :
    (3 : Nat) < (List.replicate 5 7 : List Nat).length ∧
    (read_at (List.replicate 5 7) 3 [0, 0, 0]).2 = RResult.ok 2 ∧
    (read_at (List.replicate 5 7) 3 [0, 0, 0]).1.take 2 =
      ((List.replicate 5 7 : List Nat).drop 3).take 2 := by
  have h := (c6_read_at_clamps (List.replicate 5 7) [0, 0, 0] 3).2 (by decide)
  refine ⟨by decide, ?_, ?_⟩
  · have h1 := h.1
    simpa using h1
  · have h2 := h.2
    simpa using h2

/-- Witness for C7: the amended alignment characterisation at v = 5000. -/
theorem c7_alignment_characterisation_witness :
    (5000 : Nat) ≤ 2 ^ 64 - ALIGNMENT ∧
    (ALIGNMENT ∣ align_up 5000 ∧
     5000 ≤ align_up 5000 ∧
     (∀ m, ALIGNMENT ∣ m → 5000 ≤ m → align_up 5000 ≤ m) ∧
     ALIGNMENT ∣ align_down 5000 ∧
     align_down 5000 ≤ 5000 ∧
     (∀ m, ALIGNMENT ∣ m → m ≤ 5000 → m ≤ align_down 5000) ∧
     align_up 0 = 0 ∧
     (align_up 5000 - align_down 5000 = 0 ∨
      align_up 5000 - align_down 5000 = ALIGNMENT) ∧
     align_down (align_up 5000) = align_up 5000) :=
  ⟨by decide, c7_alignment_characterisation 5000 (by decide)⟩

/-- C8: the aligned split operations return OutOfBounds exactly when the
relative position exceeds the range length, and whenever they return Split,
the low part starts at the range start, the high part ends at the range end,
and both meet at the aligned split point align_up(start + pos) respectively
align_down(start + pos), so by their start/end fields the two parts exactly
reconstruct the original range with no gap or overlap. -/
theorem c8_split_alignment_behaviour (s e pos : Nat) (_hse : s ≤ e) :
    ((AllocatedRange.mk s e).split_at_align_up pos =
        SplitUpResult.OutOfBounds ⟨s, e⟩ ↔ e - s < pos) ∧
    ((AllocatedRange.mk s e).split_at_align_down pos =
        SplitDownResult.OutOfBounds ⟨s, e⟩ ↔ e - s < pos) ∧
    (∀ low high, (AllocatedRange.mk s e).split_at_align_up pos =
        SplitUpResult.Split low high →
      low.start = s ∧ high.endPos = e ∧
      low.endPos = align_up (s + pos) ∧ high.start = align_up (s + pos)) ∧
    (∀ low high, (AllocatedRange.mk s e).split_at_align_down pos =
        SplitDownResult.Split low high →
      low.start = s ∧ high.endPos = e ∧
      low.endPos = align_down (s + pos) ∧ high.start = align_down (s + pos)) := by
  refine ⟨?_, ?_, ?_, ?_⟩
  · simp only [AllocatedRange.split_at_align_up, AllocatedRange.len]
    split
    · rename_i h
      simp_all
    · rename_i h
      split <;> simp_all
  · simp only [AllocatedRange.split_at_align_down, AllocatedRange.len]
    split
    · rename_i h
      simp_all
    · rename_i h
      split <;> simp_all
  · intro low high hsp
    simp only [AllocatedRange.split_at_align_up, AllocatedRange.len] at hsp
    split at hsp
    · simp at hsp
    · split at hsp
      · simp at hsp
      · cases hsp
        exact ⟨rfl, rfl, rfl, rfl⟩
  · intro low high hsp
    simp only [AllocatedRange.split_at_align_down, AllocatedRange.len] at hsp
    split at hsp
    · simp at hsp
    · split at hsp
      · simp at hsp
      · cases hsp
        exact ⟨rfl, rfl, rfl, rfl⟩

/-- Witness for C8: the range [0, 8192) with split position 100. -/
theorem c8_split_alignment_behaviour_witness :
    (0 : Nat) ≤ 8192 ∧
    (((AllocatedRange.mk 0 8192).split_at_align_up 100 =
        SplitUpResult.OutOfBounds ⟨0, 8192⟩ ↔ 8192 - 0 < 100) ∧
     ((AllocatedRange.mk 0 8192).split_at_align_down 100 =
        SplitDownResult.OutOfBounds ⟨0, 8192⟩ ↔ 8192 - 0 < 100) ∧
     (∀ low high, (AllocatedRange.mk 0 8192).split_at_align_up 100 =
        SplitUpResult.Split low high →
       low.start = 0 ∧ high.endPos = 8192 ∧
       low.endPos = align_up (0 + 100) ∧ high.start = align_up (0 + 100)) ∧
     (∀ low high, (AllocatedRange.mk 0 8192).split_at_align_down 100 =
        SplitDownResult.Split low high →
       low.start = 0 ∧ high.endPos = 8192 ∧
       low.endPos = align_down (0 + 100) ∧
       high.start = align_down (0 + 100))) :=
  ⟨by decide, c8_split_alignment_behaviour 0 8192 100 (by decide)⟩

/-- C10: the Split variant can carry an empty half.  A non-empty range with
a block aligned start splits at position 0 via split_at_align_up into an
empty low half [start, start) and the whole range as the high half; a
non-empty range with a block aligned end splits at position len via
split_at_align_down into the whole range as the low half and an empty high
half [end, end). -/
theorem c10_aligned_split_allows_empty_half (s e : Nat) (hlt : s < e) :
    (ALIGNMENT ∣ s → (AllocatedRange.mk s e).split_at_align_up 0 =
      SplitUpResult.Split ⟨s, s⟩ ⟨s, e⟩) ∧
    (ALIGNMENT ∣ e → (AllocatedRange.mk s e).split_at_align_down (e - s) =
      SplitDownResult.Split ⟨s, e⟩ ⟨e, e⟩) := by
  constructor
  · intro hsdvd
    have hmod : s % ALIGNMENT = 0 := by
      unfold ALIGNMENT at *
      omega
    have hup : align_up (s + 0) = s := by
      rw [Nat.add_zero]
      exact align_up_of_aligned s hmod
    simp only [AllocatedRange.split_at_align_up, AllocatedRange.len]
    rw [if_neg (by omega), hup, if_neg (by omega)]
  · intro hedvd
    have hmod : e % ALIGNMENT = 0 := by
      unfold ALIGNMENT at *
      omega
    have hdown : align_down (s + (e - s)) = e := by
      have hsum : s + (e - s) = e := by omega
      rw [hsum, align_down_val, hmod]
      omega
    simp only [AllocatedRange.split_at_align_down, AllocatedRange.len]
    rw [if_neg (by omega), hdown, if_neg (by omega)]

/-- Witness for C10: the range [4096, 8192), aligned at both ends. -/
theorem c10_aligned_split_allows_empty_half_witness :
    (4096 : Nat) < 8192 ∧
    ((ALIGNMENT ∣ 4096 → (AllocatedRange.mk 4096 8192).split_at_align_up 0 =
       SplitUpResult.Split ⟨4096, 4096⟩ ⟨4096, 8192⟩) ∧
     (ALIGNMENT ∣ 8192 →
       (AllocatedRange.mk 4096 8192).split_at_align_down (8192 - 4096) =
         SplitDownResult.Split ⟨4096, 8192⟩ ⟨8192, 8192⟩)) :=
  ⟨by decide, c10_aligned_split_allows_empty_half 4096 8192 (by decide)⟩

end RangedMmap
